import Mathlib

/-!
Verification development for the FileFlow file-organization engine
(`Logic_FileFlow.py`).  The Python source is shallowly embedded below:
pure fragments become Lean functions, the filesystem is passed explicitly
(directory trees, per-directory existing-name lists), `while` loops become
fuel-indexed recursions (`none` = the loop has not exited within the given
fuel), and exceptions become `Option`/tagged outcomes.
-/

/-! ## Decimal rendering of a counter (Python `f"{counter}"`) -/

/-- The ASCII digit character for `d` (`d < 10`), as printed by Python. -/
def digitCh (d : Nat) : Char := Char.ofNat (48 + d)

/-- Fuel-indexed decimal digits of `n`, most significant first.  Structural
in the fuel so that the kernel can evaluate it. -/
def natToStrAux : Nat → Nat → List Char
  | 0, _ => []
  | fuel + 1, n =>
      if n < 10 then [digitCh n]
      else natToStrAux fuel (n / 10) ++ [digitCh (n % 10)]

/-- Decimal rendering of a natural number, as the Python string formatting
produces for a nonnegative integer. -/
def natToStr (n : Nat) : String := ⟨natToStrAux (n + 1) n⟩

/-- Numeric value of a digit string; used to invert `natToStrAux`. -/
def strVal (cs : List Char) : Nat :=
  cs.foldl (fun acc c => 10 * acc + (c.toNat - 48)) 0

theorem strVal_append_digit (xs : List Char) (c : Char) :
    strVal (xs ++ [c]) = 10 * strVal xs + (c.toNat - 48) := by
  unfold strVal
  rw [List.foldl_append]
  rfl

theorem digitCh_toNat (d : Nat) (h : d < 10) : (digitCh d).toNat = 48 + d := by
  interval_cases d <;> decide

theorem natToStrAux_val : ∀ fuel n, n < fuel → strVal (natToStrAux fuel n) = n
  | 0, n, h => absurd h (Nat.not_lt_zero n)
  | fuel + 1, n, h => by
      unfold natToStrAux
      by_cases h10 : n < 10
      · simp only [h10, if_true]
        show strVal ([] ++ [digitCh n]) = n
        rw [strVal_append_digit, digitCh_toNat n h10]
        simp [strVal]
      · simp only [h10, if_false]
        have hdiv : n / 10 < fuel := by
          have h1 : n / 10 < n := Nat.div_lt_self (by omega) (by omega)
          omega
        rw [strVal_append_digit, natToStrAux_val fuel (n / 10) hdiv,
          digitCh_toNat (n % 10) (Nat.mod_lt n (by omega))]
        omega

theorem natToStr_injective : Function.Injective natToStr := by
  intro a b hab
  have hdata : natToStrAux (a + 1) a = natToStrAux (b + 1) b :=
    congrArg String.data hab
  have := congrArg strVal hdata
  rwa [natToStrAux_val (a + 1) a (Nat.lt_succ_self a),
    natToStrAux_val (b + 1) b (Nat.lt_succ_self b)] at this

theorem natToStrAux_ne_nil (fuel n : Nat) : natToStrAux (fuel + 1) n ≠ [] := by
  unfold natToStrAux
  by_cases h10 : n < 10 <;> simp [h10]

theorem natToStr_length_pos (n : Nat) : 1 ≤ (natToStr n).length := by
  show 1 ≤ (natToStrAux (n + 1) n).length
  have := natToStrAux_ne_nil n n
  cases hx : natToStrAux (n + 1) n with
  | nil => exact absurd hx this
  | cons c cs => simp

/-! ## ConflictSafeMover (`organize_file`, lines 438-448 and 457-464)

The current contents of the destination directory are modelled as the list of
file names present in it; `new_path.exists()` becomes list membership. -/

/-- The `k`-th candidate destination name: the plain base name for `k = 0`,
and `stem_k.ext` (Python `f"{stem}_{counter}{suffix}"`) for `k ≥ 1`. -/
def candName (stem ext : String) : Nat → String
  | 0 => stem ++ ext
  | Nat.succ k => stem ++ ("_") ++ natToStr (k + 1) ++ ext

/-- The categorized-branch name-conflict `while` loop (lines 441-445):
`cur` is the file name of `new_path`, `counter` the Python counter; each
iteration that finds `cur` taken recomputes the candidate and retries.
`none` means the loop has not exited within `fuel` iterations. -/
def resolveLoop (existing : List String) (stem ext : String) :
    String → Nat → Nat → Option String
  | _, _, 0 => none
  | cur, counter, fuel + 1 =>
      if cur ∈ existing then
        resolveLoop existing stem ext (stem ++ ("_") ++ natToStr counter ++ ext)
          (counter + 1) fuel
      else some cur

/-- Lines 439-445: start from the base name of the source with `counter = 1`. -/
def resolveConflict (existing : List String) (stem ext : String) (fuel : Nat) :
    Option String :=
  resolveLoop existing stem ext (stem ++ ext) 1 fuel

/-- The Others-branch name-conflict `while` loop (lines 458-462).  The body
computes the suffixed name as a bare expression (line 461) and discards it;
`new_path` is never reassigned, so the loop condition tests the same
name `nm` on every iteration.  The counter is kept for fidelity. -/
def othersLoop (existing : List String) (nm : String) : Nat → Nat → Option String
  | _, 0 => none
  | counter, fuel + 1 =>
      if nm ∈ existing then othersLoop existing nm (counter + 1) fuel
      else some nm

/-- Divergence of the Others-branch loop: it exits at no fuel bound. -/
def othersLoopStuck (existing : List String) (nm : String) : Prop :=
  ∀ counter fuel, othersLoop existing nm counter fuel = none

theorem othersLoop_stuck_of_mem (existing : List String) (nm : String)
    (h : nm ∈ existing) : othersLoopStuck existing nm := by
  intro counter fuel
  induction fuel generalizing counter with
  | zero => rfl
  | succ fuel ih => simp only [othersLoop, h, if_true]; exact ih (counter + 1)

theorem candName_length_zero (stem ext : String) :
    (candName stem ext 0).length = stem.length + ext.length := by
  simp [candName, String.length_append]

theorem candName_length_succ (stem ext : String) (k : Nat) :
    (candName stem ext (k + 1)).length
      = stem.length + 1 + (natToStr (k + 1)).length + ext.length := by
  simp only [candName, String.length_append]
  have h1 : ("_" : String).length = 1 := rfl
  omega

theorem candName_injective (stem ext : String) :
    Function.Injective (candName stem ext) := by
  intro a b hab
  match a, b with
  | 0, 0 => rfl
  | 0, Nat.succ k =>
      have hl := congrArg String.length hab
      rw [candName_length_zero, candName_length_succ] at hl
      have := natToStr_length_pos (k + 1)
      omega
  | Nat.succ k, 0 =>
      have hl := congrArg String.length hab
      rw [candName_length_zero, candName_length_succ] at hl
      have := natToStr_length_pos (k + 1)
      omega
  | Nat.succ k, Nat.succ j =>
      have hd := congrArg String.data hab
      simp only [candName, String.data_append] at hd
      have hd2 : (stem.data ++ ['_']) ++ ((natToStr (k + 1)).data ++ ext.data)
          = (stem.data ++ ['_']) ++ ((natToStr (j + 1)).data ++ ext.data) := by
        simpa [List.append_assoc] using hd
      have h1 : (natToStr (k + 1)).data ++ ext.data
          = (natToStr (j + 1)).data ++ ext.data :=
        List.append_cancel_left hd2
      have h2 : (natToStr (k + 1)).data = (natToStr (j + 1)).data :=
        List.append_cancel_right h1
      have h3 : natToStr (k + 1) = natToStr (j + 1) := by
        cases hk : natToStr (k + 1) with
        | mk d1 =>
        cases hj : natToStr (j + 1) with
        | mk d2 =>
        rw [hk, hj] at h2
        simp only [] at h2
        exact congrArg String.mk h2
      have := natToStr_injective h3
      omega

/-- Pigeonhole: some candidate with index at most `existing.length` is
not taken, since distinct indices yield distinct names. -/
theorem exists_free_candidate (existing : List String) (stem ext : String) :
    ∃ j, j ≤ existing.length ∧ candName stem ext j ∉ existing := by
  by_contra hall
  push_neg at hall
  have hsub : ((List.range (existing.length + 1)).map (candName stem ext))
      ⊆ existing := by
    intro x hx
    rcases List.mem_map.mp hx with ⟨j, hj, rfl⟩
    exact hall j (by simpa using Nat.lt_succ_iff.mp (List.mem_range.mp hj))
  have hnd : ((List.range (existing.length + 1)).map (candName stem ext)).Nodup :=
    (List.nodup_range (existing.length + 1)).map (candName_injective stem ext)
  have hlen : ((List.range (existing.length + 1)).map (candName stem ext)).length
      ≤ existing.length := by
    calc ((List.range (existing.length + 1)).map (candName stem ext)).length
        = ((List.range (existing.length + 1)).map (candName stem ext)).toFinset.card :=
          (List.toFinset_card_of_nodup hnd).symm
      _ ≤ existing.toFinset.card := Finset.card_le_card (by
          intro x hx
          simp only [List.mem_toFinset] at *
          exact hsub hx)
      _ ≤ existing.length := List.toFinset_card_le existing
  simp at hlen

/-- The categorized-branch loop, started at candidate `k`, returns the first
free candidate at or after `k`, provided one lies within the fuel bound. -/
theorem resolveLoop_find (existing : List String) (stem ext : String) :
    ∀ fuel k, (∃ j, k ≤ j ∧ j < k + fuel ∧ candName stem ext j ∉ existing) →
    ∃ j, k ≤ j ∧ candName stem ext j ∉ existing ∧
      (∀ i, k ≤ i → i < j → candName stem ext i ∈ existing) ∧
      resolveLoop existing stem ext (candName stem ext k) (k + 1) fuel
        = some (candName stem ext j)
  | 0, k, h => by
      rcases h with ⟨j, hkj, hlt, _⟩
      omega
  | fuel + 1, k, h => by
      by_cases hmem : candName stem ext k ∈ existing
      · have hnext : ∃ j, k + 1 ≤ j ∧ j < (k + 1) + fuel ∧
            candName stem ext j ∉ existing := by
          rcases h with ⟨j, hkj, hlt, hfree⟩
          refine ⟨j, ?_, by omega, hfree⟩
          rcases Nat.eq_or_lt_of_le hkj with rfl | hlt2
          · exact absurd hmem hfree
          · omega
        rcases resolveLoop_find existing stem ext fuel (k + 1) hnext with
          ⟨j, hkj, hfree, hmin, heq⟩
        refine ⟨j, by omega, hfree, ?_, ?_⟩
        · intro i hki hij
          rcases Nat.eq_or_lt_of_le hki with rfl | hlt2
          · exact hmem
          · exact hmin i hlt2 hij
        · show resolveLoop existing stem ext (candName stem ext k) (k + 1)
            (fuel + 1) = some (candName stem ext j)
          have hstep : resolveLoop existing stem ext (candName stem ext k)
              (k + 1) (fuel + 1)
              = resolveLoop existing stem ext
                  (stem ++ ("_") ++ natToStr (k + 1) ++ ext) (k + 2) fuel := by
            simp [resolveLoop, hmem]
          rw [hstep]
          have hcand : stem ++ ("_") ++ natToStr (k + 1) ++ ext
              = candName stem ext (k + 1) := rfl
          rw [hcand]
          exact heq
      · exact ⟨k, Nat.le_refl k, hmem, fun i h1 h2 => by omega, by
          simp [resolveLoop, hmem]⟩

/-! ## PathClassifier and OrganizerEngine (`smart_organize_threaded`, lines 378-533) -/

/-- Per-character lowercasing, modelling Python `str.lower()` on the ASCII
extensions this program compares. -/
def lowerStr (s : String) : String := ⟨s.data.map Char.toLower⟩

/-- The category table of lines 72-82 (`self.file_categories`), in its
iteration order. -/
def fileCategories : List (String × List String) :=
  [ (("Images"), [(".jpg"), (".jpeg"), (".png"), (".gif"), (".bmp"), (".webp"),
      (".heic"), (".svg"), (".tiff"), (".ico")])
  , (("Videos"), [(".mp4"), (".avi"), (".mkv"), (".mov"), (".wmv"), (".flv"),
      (".webm"), (".m4v"), (".3gp"), (".ogv")])
  , (("Audio"), [(".mp3"), (".wav"), (".flac"), (".aac"), (".ogg"), (".m4a"),
      (".wma"), (".opus")])
  , (("Documents"), [(".pdf"), (".doc"), (".docx"), (".txt"), (".rtf"),
      (".odt"), (".xls"), (".xlsx"), (".ppt"), (".pptx")])
  , (("Archives"), [(".zip"), (".rar"), (".7z"), (".tar"), (".gz"), (".bz2"),
      (".xz"), (".lzma")])
  , (("Code"), [(".py"), (".js"), (".html"), (".css"), (".java"), (".cpp"),
      (".c"), (".php"), (".rb"), (".go"), (".rs")])
  , (("APK"), [(".apk"), (".xapk"), (".aab")])
  , (("Fonts"), [(".ttf"), (".otf"), (".woff"), (".woff2")])
  , (("Ebooks"), [(".epub"), (".mobi"), (".azw"), (".azw3")]) ]

/-- The category-matching `for` loop of lines 433-434: the first category
whose extension list contains the lower-cased extension wins. -/
def findCategory (cats : List (String × List String)) (extLower : String) :
    Option String :=
  match cats with
  | [] => none
  | (c, exts) :: rest =>
      if extLower ∈ exts then some c else findCategory rest extLower

/-- A scanned file, as `organize_file` consumes it: `pathlib` stem plus
suffix (the suffix includes its leading dot and is `""` when absent;
`name = stem ++ ext`). -/
structure SrcFile where
  stem : String
  ext : String
deriving DecidableEq

/-- The tagged per-file result of `organize_file` (lines 448, 450, 465,
467, 469). -/
inductive MoveOutcome where
  | success (category : String)
  | failed (msg : String)
  | skipped (msg : String)
deriving DecidableEq

def MoveOutcome.isSuccess : MoveOutcome → Bool
  | .success _ => true
  | _ => false

def MoveOutcome.isFailed : MoveOutcome → Bool
  | .failed _ => true
  | _ => false

def MoveOutcome.isSkipped : MoveOutcome → Bool
  | .skipped _ => true
  | _ => false

/-- `organize_file` (lines 427-469).  `existing d` is the list of file
names currently in `root/d`; `moveFails d nm` is `some msg` when
`shutil.move` into `root/d/nm` would raise with message `msg`, `none` when
it succeeds.  The result is `none` when the call never returns (its
conflict `while` loop has no fuel bound under which it exits). -/
def organizeFile (cats : List (String × List String))
    (existing : String → List String)
    (moveFails : String → String → Option String)
    (fuel : Nat) (f : SrcFile) : Option MoveOutcome :=
  let extLower := lowerStr f.ext
  match findCategory cats extLower with
  | some cat =>
      match resolveConflict (existing cat) f.stem f.ext fuel with
      | some dest =>
          match moveFails cat dest with
          | none => some (MoveOutcome.success cat)
          | some e => some (MoveOutcome.failed e)
      | none => none
  | none =>
      if extLower = ("") then some (MoveOutcome.skipped ("No extension"))
      else
        match othersLoop (existing ("Others")) (f.stem ++ f.ext) 1 fuel with
        | some dest =>
            match moveFails ("Others") dest with
            | none => some (MoveOutcome.success ("Others"))
            | some e => some (MoveOutcome.failed e)
        | none => none

/-- Divergence of one `organize_file` call: no fuel bound makes it return. -/
def organizeFileDiverges (cats : List (String × List String))
    (existing : String → List String)
    (moveFails : String → String → Option String) (f : SrcFile) : Prop :=
  ∀ fuel, organizeFile cats existing moveFails fuel f = none

/-- The per-file results the organizing pool collects (lines 483-501),
one `organize_file` call per scanned file. -/
def outcomesOf (cats : List (String × List String))
    (existing : SrcFile → String → List String)
    (moveFails : SrcFile → String → String → Option String)
    (fuel : SrcFile → Nat) (files : List SrcFile) : List (Option MoveOutcome) :=
  files.map (fun f => organizeFile cats (existing f) (moveFails f) (fuel f) f)

/-- Whether a collected result is present and satisfies `p`. -/
def optIs (p : MoveOutcome → Bool) : Option MoveOutcome → Bool
  | some o => p o
  | none => false

/-- The counts `smart_organize_threaded` reports (lines 504-511 and
529-531): total files, `organized_count` and `error_count`.  No skipped
count is tallied or reported. -/
structure OrganizeReport where
  total : Nat
  organized : Nat
  errorCount : Nat
deriving DecidableEq

def smartOrganizeReport (cats : List (String × List String))
    (existing : SrcFile → String → List String)
    (moveFails : SrcFile → String → String → Option String)
    (fuel : SrcFile → Nat) (files : List SrcFile) : OrganizeReport :=
  { total := files.length
  , organized := (outcomesOf cats existing moveFails fuel files).countP
      (optIs MoveOutcome.isSuccess)
  , errorCount := (outcomesOf cats existing moveFails fuel files).countP
      (optIs MoveOutcome.isFailed) }

/-! ## Helper lemmas and concrete environments for the organizer claims -/

theorem countP_partition_of_isSome :
    ∀ l : List (Option MoveOutcome), (∀ o ∈ l, o.isSome) →
      l.countP (optIs MoveOutcome.isSuccess) + l.countP (optIs MoveOutcome.isFailed)
        + l.countP (optIs MoveOutcome.isSkipped) = l.length
  | [], _ => rfl
  | o :: l, h => by
      have hl := countP_partition_of_isSome l (fun x hx => h x (List.mem_cons_of_mem o hx))
      have ho : o.isSome := h o (List.mem_cons_self o l)
      match o, ho with
      | some out, _ =>
          cases out <;>
            (simp [List.countP_cons, optIs, MoveOutcome.isSuccess,
              MoveOutcome.isFailed, MoveOutcome.isSkipped]; omega)

/-- If a file is uncategorized, has a non-empty extension, and its base name
is already present in `root/Others`, then `organize_file` never returns:
its Others-branch conflict loop retests the same unchanged name forever. -/
theorem organizeFile_others_stuck (cats : List (String × List String))
    (existing : String → List String) (mv : String → String → Option String)
    (f : SrcFile) (hcat : findCategory cats (lowerStr f.ext) = none)
    (hne : ¬ lowerStr f.ext = ("")) (hmem : f.stem ++ f.ext ∈ existing ("Others")) :
    organizeFileDiverges cats existing mv f := by
  intro fuel
  have hstuck := othersLoop_stuck_of_mem (existing ("Others")) (f.stem ++ f.ext)
    hmem 1 fuel
  simp only [organizeFile, hcat, hstuck, if_neg hne]

/-- Destination directories all empty. -/
def emptyDirs : SrcFile → String → List String := fun _ _ => []

/-- A move primitive that never raises. -/
def noMoveFailure : SrcFile → String → String → Option String := fun _ _ _ => none

/-- One unit of loop fuel per file. -/
def oneFuel : SrcFile → Nat := fun _ => 1

/-- A categorized file plus an extensionless file. -/
def sampleFiles : List SrcFile := [⟨("a"), (".jpg")⟩, ⟨("b"), ("")⟩]

/-- A move primitive (single-file form) that never raises. -/
def mvNone : String → String → Option String := fun _ _ => none

/-- Root whose `Others` directory already holds `a.qqq`. -/
def hangDirsA : String → List String :=
  fun d => if d = ("Others") then [("a.qqq")] else []

/-- Root whose `Others` directory already holds `d.xyz`. -/
def hangDirsD : String → List String :=
  fun d => if d = ("Others") then [("d.xyz")] else []

/-- The Others directory contents for the C3 failing input. -/
def othersWithReport : List String := [("b.dat")]

/-! ## Claim theorems: organizer (C1-C4) -/

/-- Claim C1 (amended): in every run of the organize operation whose
`organize_file` calls all return, each input file yields exactly one
outcome, and the success count plus the error count plus the skipped count
equals the number of scanned files; the report delivers the total, success
and error counts, while the skipped count is not tallied in it. -/
theorem claim_C1_organize_tally (cats : List (String × List String))
    (existing : SrcFile → String → List String)
    (moveFails : SrcFile → String → String → Option String)
    (fuel : SrcFile → Nat) (files : List SrcFile)
    (h : ∀ o ∈ outcomesOf cats existing moveFails fuel files, o.isSome) :
    (smartOrganizeReport cats existing moveFails fuel files).organized
      + (smartOrganizeReport cats existing moveFails fuel files).errorCount
      + (outcomesOf cats existing moveFails fuel files).countP
          (optIs MoveOutcome.isSkipped)
    = (smartOrganizeReport cats existing moveFails fuel files).total := by
  have hlen : (outcomesOf cats existing moveFails fuel files).length
      = files.length := List.length_map files _
  have := countP_partition_of_isSome (outcomesOf cats existing moveFails fuel files) h
  simpa [smartOrganizeReport, hlen] using this

theorem claim_C1_organize_tally_witness :
    (smartOrganizeReport fileCategories emptyDirs noMoveFailure oneFuel
        sampleFiles).organized
      + (smartOrganizeReport fileCategories emptyDirs noMoveFailure oneFuel
        sampleFiles).errorCount
      + (outcomesOf fileCategories emptyDirs noMoveFailure oneFuel
          sampleFiles).countP (optIs MoveOutcome.isSkipped)
    = (smartOrganizeReport fileCategories emptyDirs noMoveFailure oneFuel
        sampleFiles).total :=
  claim_C1_organize_tally fileCategories emptyDirs noMoveFailure oneFuel
    sampleFiles (by decide)

/-- Claim C1 counterexample: the uncategorized file `a.qqq`, in a root whose
`Others` directory already holds `a.qqq`, yields no outcome at all: its
`organize_file` call returns under no fuel bound, so this run violates
"every input file yields exactly one outcome". -/
theorem claim_C1_no_outcome_counterexample :
    organizeFileDiverges fileCategories hangDirsA mvNone ⟨("a"), (".qqq")⟩ :=
  organizeFile_others_stuck fileCategories hangDirsA mvNone ⟨("a"), (".qqq")⟩
    (by decide) (by decide) (by decide)

/-- Claim C2: the code does not apply the suffix conflict resolution in the
`Others` case.  With `Others/d.xyz` already present, organizing another
`d.xyz` (whose extension matches no category) makes `organize_file` spin
forever in its conflict `while` loop — the suffixed candidate computed on
line 461 is discarded and `new_path` never changes — so the file is neither
renamed to `d_1.xyz` nor moved nor skipped. -/
theorem claim_C2_others_no_suffix_resolution :
    organizeFileDiverges fileCategories hangDirsD mvNone ⟨("d"), (".xyz")⟩ :=
  organizeFile_others_stuck fileCategories hangDirsD mvNone ⟨("d"), (".xyz")⟩
    (by decide) (by decide) (by decide)

/-- Claim C3: refuted.  The Others-branch name-conflict `while` loop does
not exit when a file of the same base name is already present: with
`b.dat` in `root/Others`, the loop returns under no fuel bound, so
`organize_file` does not terminate on such an input. -/
theorem claim_C3_others_loop_no_exit :
    othersLoopStuck othersWithReport ("b.dat") :=
  othersLoop_stuck_of_mem othersWithReport ("b.dat") (by decide)

/-- Claim C4: for every destination-directory content, the categorized-file
mover (started with fuel exceeding the number of existing entries) returns
the first free candidate in the sequence `name.ext`, `name_1.ext`,
`name_2.ext`, …: the chosen name is not present (nothing is overwritten)
and every earlier candidate in the increasing-suffix sequence was taken. -/
theorem claim_C4_mover_conflict_resolution (existing : List String)
    (stem ext : String) :
    ∃ j, candName stem ext j ∉ existing ∧
      (∀ i, i < j → candName stem ext i ∈ existing) ∧
      resolveConflict existing stem ext (existing.length + 1)
        = some (candName stem ext j) := by
  rcases exists_free_candidate existing stem ext with ⟨j0, hle, hfree⟩
  rcases resolveLoop_find existing stem ext (existing.length + 1) 0
      ⟨j0, Nat.zero_le j0, by omega, hfree⟩ with ⟨j, _, hfree2, hmin, heq⟩
  exact ⟨j, hfree2, fun i hij => hmin i (Nat.zero_le i) hij, heq⟩

/-! ## DuplicateGrouper (`find_duplicates_threaded`, lines 535-701)

A file to be hashed carries its path and, when readable, its byte content;
`content = none` models `get_file_hash` hitting a read exception and
returning `(filepath, None)` (lines 579-580).  The digest primitive
(`hashlib.md5`, an external library) is a parameter mapping content to its
hex digest string. -/

structure HFile where
  path : String
  content : Option (List Nat)
deriving DecidableEq

/-- `hash_to_files[file_hash].append(filepath)` (line 603) on the
insertion-ordered digest map, modelled as an association list. -/
def addPath (gs : List (String × List String)) (dg : String) (p : String) :
    List (String × List String) :=
  match gs with
  | [] => [(dg, [p])]
  | (k, ps) :: rest =>
      if k = dg then (k, ps ++ [p]) :: rest else (k, ps) :: addPath rest dg p

/-- The hashing fold of lines 598-621: files whose hash failed are not
inserted anywhere. -/
def buildGroups (hash : List Nat → String) :
    List HFile → List (String × List String) → List (String × List String)
  | [], gs => gs
  | f :: fs, gs =>
      match f.content with
      | none => buildGroups hash fs gs
      | some c => buildGroups hash fs (addPath gs (hash c) f.path)

/-- Line 625: keep only digest groups of two or more members. -/
def duplicateGroups (hash : List Nat → String) (files : List HFile) :
    List (String × List String) :=
  (buildGroups hash files []).filter (fun g => 1 < g.2.length)

/-- The member list recorded under digest `d`. -/
def lookupG (gs : List (String × List String)) (d : String) : List String :=
  match gs with
  | [] => []
  | (k, ps) :: rest => if k = d then ps else lookupG rest d

/-- The paths of the files whose content hashes to `d`, in input order. -/
def pathsFor (hash : List Nat → String) (d : String) (files : List HFile) :
    List String :=
  files.filterMap (fun f =>
    match f.content with
    | none => none
    | some c => if hash c = d then some f.path else none)

/-- Everything reported by the duplicate finder before the optional
removal step: the groups of line 625 and the duplicate tally of line 635.
No failed-hash tally exists anywhere in the report. -/
structure DedupReport where
  groups : List (String × List String)
  totalDuplicates : Nat
deriving DecidableEq

def findDuplicatesReport (hash : List Nat → String) (files : List HFile) :
    DedupReport :=
  { groups := duplicateGroups hash files
  , totalDuplicates :=
      ((duplicateGroups hash files).map (fun g => g.2.length - 1)).sum }

theorem lookupG_addPath (gs : List (String × List String)) (dg p d) :
    lookupG (addPath gs dg p) d
      = if d = dg then lookupG gs d ++ [p] else lookupG gs d := by
  induction gs with
  | nil =>
      by_cases hd : d = dg
      · subst hd; simp [addPath, lookupG]
      · have hd2 : ¬ dg = d := fun h => hd h.symm
        simp [addPath, lookupG, hd, hd2]
  | cons g rest ih =>
      obtain ⟨k, ps⟩ := g
      by_cases hk : k = dg
      · subst hk
        by_cases hd : d = k
        · subst hd; simp [addPath, lookupG]
        · have hd2 : ¬ k = d := fun h => hd h.symm
          simp [addPath, lookupG, hd, hd2]
      · have hstep : addPath ((k, ps) :: rest) dg p
            = (k, ps) :: addPath rest dg p := by
          simp [addPath, hk]
        rw [hstep]
        by_cases hd : k = d
        · have hddg : ¬ d = dg := fun h => hk (hd.trans h)
          simp [lookupG, hd, hddg]
        · simp [lookupG, hd, ih]

theorem lookupG_buildGroups (hash : List Nat → String) :
    ∀ (files : List HFile) (gs : List (String × List String)) (d : String),
      lookupG (buildGroups hash files gs) d
        = lookupG gs d ++ pathsFor hash d files
  | [], gs, d => by simp [buildGroups, pathsFor]
  | f :: fs, gs, d => by
      cases hc : f.content with
      | none =>
          simp [buildGroups, hc, pathsFor, lookupG_buildGroups hash fs gs d]
      | some c =>
          by_cases hd : hash c = d
          · subst hd
            simp [buildGroups, hc, pathsFor,
              lookupG_buildGroups hash fs (addPath gs (hash c) f.path),
              lookupG_addPath, List.append_assoc]
          · have hd2 : ¬ d = hash c := fun h => hd h.symm
            simp [buildGroups, hc, pathsFor,
              lookupG_buildGroups hash fs (addPath gs (hash c) f.path),
              lookupG_addPath, hd, hd2]

theorem lookupG_mem (gs : List (String × List String)) (d : String)
    (h : lookupG gs d ≠ []) : (d, lookupG gs d) ∈ gs := by
  induction gs with
  | nil => exact absurd rfl h
  | cons g rest ih =>
      obtain ⟨k, ps⟩ := g
      by_cases hk : k = d
      · subst hk
        simp [lookupG]
      · simp only [lookupG, if_neg hk] at h ⊢
        exact List.mem_cons_of_mem (k, ps) (ih h)

theorem mem_pathsFor (hash : List Nat → String) (d : String)
    (files : List HFile) (p : String) :
    p ∈ pathsFor hash d files
      ↔ ∃ f ∈ files, f.path = p ∧ ∃ c, f.content = some c ∧ hash c = d := by
  constructor
  · intro hp
    rcases List.mem_filterMap.mp hp with ⟨f, hf, heq⟩
    refine ⟨f, hf, ?_⟩
    cases hc : f.content with
    | none => rw [hc] at heq; simp at heq
    | some c =>
        rw [hc] at heq
        by_cases hd : hash c = d
        · have h2 : some f.path = some p := by simpa [hd] using heq
          exact ⟨Option.some.inj h2, c, rfl, hd⟩
        · simp [hd] at heq
  · rintro ⟨f, hf, hp, c, hc, hd⟩
    refine List.mem_filterMap.mpr ⟨f, hf, ?_⟩
    simp [hc, hd, hp]

/-- A path found in any group of `addPath gs d q` was already in a group of
`gs` with the same digest, or is the newly appended path under digest `d`. -/
theorem mem_addPath_path (gs : List (String × List String)) (d q : String)
    (g : String × List String) (p : String) (hg : g ∈ addPath gs d q)
    (hp : p ∈ g.2) :
    (∃ g0 ∈ gs, g0.1 = g.1 ∧ p ∈ g0.2) ∨ (p = q ∧ g.1 = d) := by
  induction gs with
  | nil =>
      simp only [addPath, List.mem_singleton] at hg
      rw [hg] at hp ⊢
      simp only [List.mem_singleton] at hp
      exact Or.inr ⟨hp, rfl⟩
  | cons g1 rest ih =>
      obtain ⟨k, ps⟩ := g1
      by_cases hk : k = d
      · subst hk
        have hstep : addPath ((k, ps) :: rest) k q = (k, ps ++ [q]) :: rest := by
          simp [addPath]
        rw [hstep] at hg
        rcases List.mem_cons.mp hg with hg1 | hg2
        · rw [hg1] at hp ⊢
          replace hp : p ∈ ps ++ [q] := hp
          simp only [List.mem_append, List.mem_singleton] at hp
          rcases hp with hp | hp
          · exact Or.inl ⟨(k, ps), List.mem_cons_self (k, ps) rest, rfl, hp⟩
          · exact Or.inr ⟨hp, rfl⟩
        · exact Or.inl ⟨g, List.mem_cons_of_mem (k, ps) hg2, rfl, hp⟩
      · have hstep : addPath ((k, ps) :: rest) d q
            = (k, ps) :: addPath rest d q := by
          simp [addPath, hk]
        rw [hstep] at hg
        rcases List.mem_cons.mp hg with hg1 | hg2
        · rw [hg1] at hp ⊢
          exact Or.inl ⟨(k, ps), List.mem_cons_self (k, ps) rest, rfl, hp⟩
        · rcases ih hg2 with ⟨g0, hg0, hkey, hpg0⟩ | hpq
          · exact Or.inl ⟨g0, List.mem_cons_of_mem (k, ps) hg0, hkey, hpg0⟩
          · exact Or.inr hpq

/-- A path found in any group built by the hashing fold comes from an input
file that hashed successfully to the digest of that group (or was already in the
accumulator under the same digest). -/
theorem mem_buildGroups_path (hash : List Nat → String) :
    ∀ (files : List HFile) (gs : List (String × List String))
      (g : String × List String) (p : String),
      g ∈ buildGroups hash files gs → p ∈ g.2 →
      (∃ g0 ∈ gs, g0.1 = g.1 ∧ p ∈ g0.2)
        ∨ ∃ f ∈ files, f.path = p ∧ ∃ c, f.content = some c ∧ hash c = g.1
  | [], gs, g, p, hg, hp => Or.inl ⟨g, hg, rfl, hp⟩
  | f :: fs, gs, g, p, hg, hp => by
      cases hc : f.content with
      | none =>
          rw [buildGroups, hc] at hg
          rcases mem_buildGroups_path hash fs gs g p hg hp with h | ⟨f0, hf0, he⟩
          · exact Or.inl h
          · exact Or.inr ⟨f0, List.mem_cons_of_mem f hf0, he⟩
      | some c =>
          rw [buildGroups, hc] at hg
          rcases mem_buildGroups_path hash fs (addPath gs (hash c) f.path) g p
              hg hp with ⟨g0, hg0, hkey, hpg0⟩ | ⟨f0, hf0, he⟩
          · rcases mem_addPath_path gs (hash c) f.path g0 p hg0 hpg0 with
              ⟨g1, hg1, hkey1, hpg1⟩ | ⟨hpq, hkeyd⟩
            · exact Or.inl ⟨g1, hg1, hkey1.trans hkey, hpg1⟩
            · exact Or.inr ⟨f, List.mem_cons_self f fs, hpq.symm,
                c, hc, hkeyd.symm.trans hkey⟩
          · exact Or.inr ⟨f0, List.mem_cons_of_mem f hf0, he⟩

theorem two_le_length_of_mem_ne {l : List String} {a b : String}
    (ha : a ∈ l) (hb : b ∈ l) (hab : a ≠ b) : 2 ≤ l.length := by
  match l, ha with
  | [x], ha =>
      simp only [List.mem_singleton] at ha hb
      exact absurd (ha.trans hb.symm) hab
  | x :: y :: t, _ => simp

/-! ## Claim theorems: duplicate detection (C5, C7) -/

/-- Claim C5: duplicate finding returns only groups of at least two
members; two files with identical content that both hash successfully land
in the same returned group; files whose digests differ never share a group;
and, granted the premise of the spec that the external digest primitive never
collides across different content lengths, files of different sizes never
share a group. -/
theorem claim_C5_duplicate_grouping (hash : List Nat → String)
    (files : List HFile) (f1 f2 : HFile) (c1 c2 : List Nat)
    (hnd : (files.map HFile.path).Nodup)
    (h1 : f1 ∈ files) (h2 : f2 ∈ files)
    (hc1 : f1.content = some c1) (hc2 : f2.content = some c2) :
    (∀ g ∈ duplicateGroups hash files, 2 ≤ g.2.length)
    ∧ (c1 = c2 → f1.path ≠ f2.path →
        ∃ g ∈ duplicateGroups hash files, f1.path ∈ g.2 ∧ f2.path ∈ g.2)
    ∧ (hash c1 ≠ hash c2 →
        ∀ g ∈ duplicateGroups hash files, f1.path ∈ g.2 → f2.path ∉ g.2)
    ∧ ((∀ a b : List Nat, a.length ≠ b.length → hash a ≠ hash b) →
        c1.length ≠ c2.length →
        ∀ g ∈ duplicateGroups hash files, f1.path ∈ g.2 → f2.path ∉ g.2) := by
  have hbase : ∀ g ∈ buildGroups hash files [], ∀ p ∈ g.2,
      ∃ f ∈ files, f.path = p ∧ ∃ c, f.content = some c ∧ hash c = g.1 := by
    intro g hg p hp
    rcases mem_buildGroups_path hash files [] g p hg hp with ⟨g0, hg0, _⟩ | h
    · exact absurd hg0 (List.not_mem_nil g0)
    · exact h
  have hsep : hash c1 ≠ hash c2 →
      ∀ g ∈ duplicateGroups hash files, f1.path ∈ g.2 → f2.path ∉ g.2 := by
    intro hne g hg hp1 hp2
    have hgb : g ∈ buildGroups hash files [] := (List.mem_filter.mp hg).1
    rcases hbase g hgb f1.path hp1 with ⟨fa, hfa, hpa, ca, hca, hda⟩
    rcases hbase g hgb f2.path hp2 with ⟨fb, hfb, hpb, cb, hcb, hdb⟩
    have hfa1 : fa = f1 := List.inj_on_of_nodup_map hnd hfa h1 hpa
    have hfb2 : fb = f2 := List.inj_on_of_nodup_map hnd hfb h2 hpb
    subst hfa1
    subst hfb2
    rw [hc1] at hca
    rw [hc2] at hcb
    have hca2 : ca = c1 := Option.some.inj hca.symm
    have hcb2 : cb = c2 := Option.some.inj hcb.symm
    subst hca2
    subst hcb2
    exact hne (hda.trans hdb.symm)
  refine ⟨?_, ?_, hsep, fun hs hlen => hsep (hs c1 c2 hlen)⟩
  · intro g hg
    have hfilt := (List.mem_filter.mp hg).2
    simp only [decide_eq_true_eq] at hfilt
    omega
  · intro hcc hne
    have hL : lookupG (buildGroups hash files []) (hash c1)
        = pathsFor hash (hash c1) files := by
      rw [lookupG_buildGroups hash files [] (hash c1)]
      rfl
    have hp1 : f1.path ∈ pathsFor hash (hash c1) files :=
      (mem_pathsFor hash (hash c1) files f1.path).mpr ⟨f1, h1, rfl, c1, hc1, rfl⟩
    have hp2 : f2.path ∈ pathsFor hash (hash c1) files :=
      (mem_pathsFor hash (hash c1) files f2.path).mpr
        ⟨f2, h2, rfl, c2, hc2, by rw [hcc]⟩
    have hlen : 2 ≤ (pathsFor hash (hash c1) files).length :=
      two_le_length_of_mem_ne hp1 hp2 hne
    have hnil : lookupG (buildGroups hash files []) (hash c1) ≠ [] := by
      rw [hL]
      intro hx
      rw [hx] at hlen
      simp at hlen
    refine ⟨(hash c1, lookupG (buildGroups hash files []) (hash c1)),
      List.mem_filter.mpr ⟨lookupG_mem (buildGroups hash files []) (hash c1) hnil,
        ?_⟩, ?_, ?_⟩
    · simp only [decide_eq_true_eq]
      rw [hL]
      omega
    · show f1.path ∈ lookupG (buildGroups hash files []) (hash c1)
      rw [hL]
      exact hp1
    · show f2.path ∈ lookupG (buildGroups hash files []) (hash c1)
      rw [hL]
      exact hp2

/-- A concrete digest primitive for witnesses: the decimal rendering of the
content length (injective across lengths by `natToStr_injective`). -/
def lenHash : List Nat → String := fun c => natToStr c.length

/-- Three concrete files: two with identical two-byte content, one other. -/
def dupSampleFiles : List HFile :=
  [⟨("a"), some [1, 2]⟩, ⟨("b"), some [1, 2]⟩, ⟨("c"), some [9]⟩]

theorem claim_C5_duplicate_grouping_witness :
    (∀ g ∈ duplicateGroups lenHash dupSampleFiles, 2 ≤ g.2.length)
    ∧ (([1, 2] : List Nat) = [1, 2] → (("a") : String) ≠ ("b") →
        ∃ g ∈ duplicateGroups lenHash dupSampleFiles,
          (("a") : String) ∈ g.2 ∧ (("b") : String) ∈ g.2)
    ∧ (lenHash [1, 2] ≠ lenHash [1, 2] →
        ∀ g ∈ duplicateGroups lenHash dupSampleFiles,
          (("a") : String) ∈ g.2 → (("b") : String) ∉ g.2)
    ∧ ((∀ a b : List Nat, a.length ≠ b.length → lenHash a ≠ lenHash b) →
        ([1, 2] : List Nat).length ≠ ([1, 2] : List Nat).length →
        ∀ g ∈ duplicateGroups lenHash dupSampleFiles,
          (("a") : String) ∈ g.2 → (("b") : String) ∉ g.2) :=
  claim_C5_duplicate_grouping lenHash dupSampleFiles
    ⟨("a"), some [1, 2]⟩ ⟨("b"), some [1, 2]⟩ [1, 2] [1, 2]
    (by decide) (by decide) (by decide) rfl rfl

/-! ## Duplicate removal (`find_duplicates_threaded`, lines 635-693) -/

/-- One duplicate set as the removal step consumes it: the size reported by
`files[0].stat().st_size` (line 643) and the member paths in group order. -/
structure DupGroup where
  size : Nat
  members : List String
deriving DecidableEq

/-- Lines 679-689: for every group, every member except the first gets an
`unlink` attempt; `ok p` tells whether unlinking `p` succeeds.  `removed`
counts the successful attempts. -/
def removedCount (ok : String → Bool) (gs : List DupGroup) : Nat :=
  (gs.map (fun g => (g.members.drop 1).countP ok)).sum

/-- The per-file failures reported via the `except` branch of lines 685-689. -/
def removalFailures (ok : String → Bool) (gs : List DupGroup) : List String :=
  (gs.map (fun g => (g.members.drop 1).filter (fun p => !(ok p)))).flatten

/-- The freed-space figure the code prints (line 693): `duplicate_size`,
precomputed on lines 643-644 as size times non-keep member count,
independent of deletion results. -/
def reportedFreed (gs : List DupGroup) : Nat :=
  (gs.map (fun g => g.size * (g.members.length - 1))).sum

/-- Modelled from the spec: the bytes actually reclaimed, i.e. the sizes of
the members whose deletion succeeded.  The code computes no such figure. -/
def actualFreed (ok : String → Bool) (gs : List DupGroup) : Nat :=
  (gs.map (fun g => g.size * ((g.members.drop 1).countP ok))).sum

theorem countP_add_countP_not (l : List String) (p : String → Bool) :
    l.countP p + (l.filter (fun x => !(p x))).length = l.length := by
  induction l with
  | nil => rfl
  | cons a l ih =>
      by_cases hp : p a
      · simp [List.countP_cons, List.filter_cons, hp]
        omega
      · simp only [Bool.not_eq_true] at hp
        simp [List.countP_cons, List.filter_cons, hp]
        omega

/-- Claim C6 (amended): every non-keep member of every group receives an
independent deletion attempt — successes and failures partition the
non-keep members exactly, so one failure blocks nothing — and the removed
count tallies actual successes; but the freed-space figure reported is the
precomputed duplicate size, which only bounds the actually reclaimed bytes
from above and equals them just when every deletion succeeds. -/
theorem claim_C6_duplicate_removal (ok : String → Bool) (gs : List DupGroup) :
    removedCount ok gs + (removalFailures ok gs).length
        = (gs.map (fun g => g.members.length - 1)).sum
    ∧ actualFreed ok gs ≤ reportedFreed gs
    ∧ ((∀ p, ok p = true) → actualFreed ok gs = reportedFreed gs) := by
  induction gs with
  | nil => exact ⟨rfl, Nat.le_refl 0, fun _ => rfl⟩
  | cons g gs ih =>
      obtain ⟨ih1, ih2, ih3⟩ := ih
      refine ⟨?_, ?_, ?_⟩
      · have hg := countP_add_countP_not (g.members.drop 1) ok
        have hdrop : (g.members.drop 1).length = g.members.length - 1 :=
          List.length_drop 1 g.members
        simp only [removedCount, removalFailures, List.map_cons, List.sum_cons,
          List.flatten_cons, List.length_append] at *
        omega
      · have hcle : (g.members.drop 1).countP ok ≤ g.members.length - 1 := by
          have h1 := List.countP_le_length (p := ok) (l := g.members.drop 1)
          have h2 : (g.members.drop 1).length = g.members.length - 1 :=
            List.length_drop 1 g.members
          omega
        have hmul : g.size * ((g.members.drop 1).countP ok)
            ≤ g.size * (g.members.length - 1) :=
          Nat.mul_le_mul_left g.size hcle
        simp only [actualFreed, reportedFreed, List.map_cons, List.sum_cons] at *
        omega
      · intro hall
        have hcnt : (g.members.drop 1).countP ok = g.members.length - 1 := by
          have h1 : (g.members.drop 1).countP ok = (g.members.drop 1).length :=
            List.countP_eq_length.mpr (fun a _ => hall a)
          have h2 : (g.members.drop 1).length = g.members.length - 1 :=
            List.length_drop 1 g.members
          omega
        have := ih3 hall
        simp only [actualFreed, reportedFreed, List.map_cons, List.sum_cons] at *
        rw [hcnt]
        omega

/-- A group of two five-byte files whose non-keep member fails to delete. -/
def c6groups : List DupGroup := [⟨5, [("a"), ("b")]⟩]

/-- A deletion primitive that always fails. -/
def allFail : String → Bool := fun _ => false

/-- Claim C6 counterexample: with the single non-keep member failing to
delete, nothing is removed and nothing is reclaimed, yet the reported
freed-space figure is the full 5 bytes — the code does not aggregate the
bytes actually reclaimed. -/
theorem claim_C6_reported_freed_counterexample :
    removedCount allFail c6groups = 0 ∧ actualFreed allFail c6groups = 0
      ∧ reportedFreed c6groups = 5
      ∧ removalFailures allFail c6groups = [("b")] := by decide

/-! ## Claim theorems: hash-failure handling (C7) -/

/-- Claim C7 (amended): a file whose hashing fails is reported back as an
error value (`content = none` models `get_file_hash` returning
`(filepath, None)` instead of raising), and its path appears in no digest
group whatsoever; the omission, however, is silent — no error tally is
reported (see the counterexample). -/
theorem claim_C7_hash_failure_excluded (hash : List Nat → String)
    (files : List HFile) (f : HFile)
    (hnd : (files.map HFile.path).Nodup) (hf : f ∈ files)
    (hc : f.content = none) :
    ∀ g ∈ buildGroups hash files [], f.path ∉ g.2 := by
  intro g hg hp
  rcases mem_buildGroups_path hash files [] g f.path hg hp with
    ⟨g0, hg0, _⟩ | ⟨f0, hf0, hp0, c, hc0, _⟩
  · exact absurd hg0 (List.not_mem_nil g0)
  · have hff : f0 = f := List.inj_on_of_nodup_map hnd hf0 hf hp0
    rw [hff, hc] at hc0
    exact Option.noConfusion hc0

/-- Files for the C7 witness: an unreadable `x` beside duplicates `y`, `z`. -/
def c7files : List HFile :=
  [⟨("x"), none⟩, ⟨("y"), some [1]⟩, ⟨("z"), some [1]⟩]

theorem claim_C7_hash_failure_excluded_witness :
    (("x") : String) ∉ ((natToStr 1), [("y"), ("z")]).2 :=
  claim_C7_hash_failure_excluded lenHash c7files ⟨("x"), none⟩
    (by decide) (by decide) rfl ((natToStr 1), [("y"), ("z")]) (by decide)

/-- A single unreadable file. -/
def c7failOnly : List HFile := [⟨("x"), none⟩]

/-- A single readable, unique file. -/
def c7uniqueOnly : List HFile := [⟨("x"), some [1]⟩]

/-- Claim C7 counterexample: the caller-visible report of the duplicate finder is
identical whether the lone file failed to hash or hashed fine and was
simply unique — the omission of a failed file is not observable; no error
tally exists. -/
theorem claim_C7_silent_omission_counterexample :
    findDuplicatesReport lenHash c7failOnly
      = findDuplicatesReport lenHash c7uniqueOnly := by decide

/-! ## DirectoryScanner (`scan_files_threaded`, lines 282-376)

The filesystem under the root is a finite tree of directories.  A directory
that is not readable is still seen by the enumeration of its parent, but listing
it raises `PermissionError` (modelled: it contributes no files and one
error entry) and the recursive `rglob` walk does not descend into it. -/

inductive Dir where
  | node (dname : String) (readable : Bool) (dfiles : List String)
      (subs : List Dir)

def Dir.dname : Dir → String
  | .node n _ _ _ => n

def Dir.readable : Dir → Bool
  | .node _ r _ _ => r

def Dir.dfiles : Dir → List String
  | .node _ _ fs _ => fs

def Dir.subs : Dir → List Dir
  | .node _ _ _ s => s

/-- The recursive directory-only enumeration of `path.rglob("*")`
(lines 310-313) over a forest, in depth-first order: every directory seen
is listed, and the walk descends only into readable ones. -/
def rglobList : List Dir → List Dir
  | [] => []
  | Dir.node n r fs subs :: ds =>
      Dir.node n r fs subs :: (if r then rglobList subs else []) ++ rglobList ds

/-- Lines 309-313: `directories = [path]` followed by the `rglob` pass. -/
def directories (d : Dir) : List Dir :=
  d :: (if d.readable then rglobList d.subs else [])

/-- The files `scan_directory` (lines 295-307) yields for one directory. -/
def listFilesOf (d : Dir) : List String :=
  if d.readable then d.dfiles else []

/-- The error entries `scan_directory` records for one directory. -/
def listErrorsOf (d : Dir) : List String :=
  if d.readable then [] else [("Permission denied: ") ++ d.dname]

/-- What one scan delivers: the merged flat file list, the recorded
per-directory errors, and the fatal message printed when the root is
missing (lines 285-290). -/
structure ScanOut where
  files : List String
  errors : List String
  fatal : Option String
deriving DecidableEq

def scanFilesThreaded : Option Dir → ScanOut
  | none => ⟨[], [], some (("Path does not exist"))⟩
  | some d =>
      ⟨((directories d).map listFilesOf).flatten,
        ((directories d).map listErrorsOf).flatten, none⟩

/-- An independent recursive walk collecting every file in the forest,
defined directly on the tree structure (the reference count of the spec). -/
def walkList : List Dir → List String
  | [] => []
  | Dir.node _ _ fs subs :: ds => fs ++ walkList subs ++ walkList ds

/-- An independent recursive enumeration of every directory in the forest. -/
def allDirsList : List Dir → List Dir
  | [] => []
  | Dir.node n r fs subs :: ds =>
      Dir.node n r fs subs :: allDirsList subs ++ allDirsList ds

/-- Every directory in the forest is readable. -/
def allReadable : List Dir → Bool
  | [] => true
  | Dir.node _ r _ subs :: ds => r && allReadable subs && allReadable ds

theorem rglobList_eq_allDirsList (l : List Dir) (h : allReadable l = true) :
    rglobList l = allDirsList l := by
  induction l using rglobList.induct with
  | case1 => simp [rglobList, allDirsList]
  | case2 n r fs subs ds ih1 ih2 =>
      simp only [allReadable, Bool.and_eq_true] at h
      obtain ⟨⟨hr, hsubs⟩, hds⟩ := h
      simp only [rglobList, allDirsList, hr, if_true, ih1 hsubs, ih2 hds]

theorem files_of_rglobList (l : List Dir) (h : allReadable l = true) :
    ((rglobList l).map listFilesOf).flatten = walkList l := by
  induction l using rglobList.induct with
  | case1 => simp [rglobList, walkList]
  | case2 n r fs subs ds ih1 ih2 =>
      simp only [allReadable, Bool.and_eq_true] at h
      obtain ⟨⟨hr, hsubs⟩, hds⟩ := h
      subst hr
      simp only [rglobList, if_true, walkList, List.map_cons, List.map_append,
        List.flatten_cons, List.flatten_append, ih1 hsubs, ih2 hds,
        listFilesOf, Dir.readable, Dir.dfiles, List.append_assoc]

/-! ## Claim theorems: scanner (C8, C9) -/

/-- Claim C8: a missing root aborts the scan with an empty result and a
top-level error; a permission-denied directory anywhere under an existing
root contributes a recorded error entry naming it, while every readable
directory files still reach the merged result — the scan does not abort. -/
theorem claim_C8_scan_error_handling (d u : Dir)
    (hu : u ∈ directories d) (hur : u.readable = false) :
    scanFilesThreaded none = ⟨[], [], some (("Path does not exist"))⟩
    ∧ (("Permission denied: ") ++ u.dname) ∈ (scanFilesThreaded (some d)).errors
    ∧ (∀ v, v ∈ directories d → v.readable = true →
        ∀ f ∈ v.dfiles, f ∈ (scanFilesThreaded (some d)).files) := by
  refine ⟨rfl, ?_, ?_⟩
  · show (("Permission denied: ") ++ u.dname)
        ∈ ((directories d).map listErrorsOf).flatten
    refine List.mem_flatten.mpr
      ⟨listErrorsOf u, List.mem_map_of_mem listErrorsOf hu, ?_⟩
    simp [listErrorsOf, hur]
  · intro v hv hvr f hf
    show f ∈ ((directories d).map listFilesOf).flatten
    refine List.mem_flatten.mpr
      ⟨listFilesOf v, List.mem_map_of_mem listFilesOf hv, ?_⟩
    simp [listFilesOf, hvr, hf]

/-- An unreadable directory. -/
def dirB : Dir := Dir.node ("B") false [("h1")] []

/-- A readable sibling directory. -/
def dirA : Dir := Dir.node ("A") true [("a2")] []

/-- A readable root containing one readable and one unreadable child. -/
def c8root : Dir := Dir.node ("root") true [("a1")] [dirA, dirB]

theorem claim_C8_scan_error_handling_witness :
    scanFilesThreaded none = ⟨[], [], some (("Path does not exist"))⟩
    ∧ (("Permission denied: ") ++ dirB.dname)
        ∈ (scanFilesThreaded (some c8root)).errors
    ∧ (∀ v, v ∈ directories c8root → v.readable = true →
        ∀ f ∈ v.dfiles, f ∈ (scanFilesThreaded (some c8root)).files) :=
  claim_C8_scan_error_handling c8root dirB
    (by simp [c8root, dirA, dirB, directories, rglobList, Dir.readable, Dir.subs])
    rfl

/-- Claim C9: over an existing, fully readable root, the merged flat file
list of the scan equals (file by file, multiplicity included) the list an
independent recursive walk collects, and the directory enumeration pass
computes exactly the complete set of directories of the tree. -/
theorem claim_C9_scan_complete (d : Dir) (h : allReadable [d] = true) :
    (scanFilesThreaded (some d)).files = walkList [d]
    ∧ directories d = allDirsList [d]
    ∧ (scanFilesThreaded (some d)).files.length = (walkList [d]).length := by
  obtain ⟨n, r, fs, subs⟩ := d
  have h2 : r = true ∧ allReadable subs = true := by
    have := h
    simp only [allReadable, Bool.and_eq_true] at this
    exact ⟨this.1.1, this.1.2⟩
  obtain ⟨hr, hsubs⟩ := h2
  subst hr
  have hfiles : (scanFilesThreaded (some (Dir.node n true fs subs))).files
      = walkList [Dir.node n true fs subs] := by
    show ((directories (Dir.node n true fs subs)).map listFilesOf).flatten = _
    simp only [directories, Dir.readable, Dir.subs, if_true, List.map_cons,
      List.flatten_cons, listFilesOf, Dir.dfiles,
      files_of_rglobList subs hsubs]
    simp [walkList]
  refine ⟨hfiles, ?_, by rw [hfiles]⟩
  simp only [directories, Dir.readable, Dir.subs, if_true,
    rglobList_eq_allDirsList subs hsubs]
  simp [allDirsList]

/-- A fully readable two-level tree. -/
def c9tree : Dir :=
  Dir.node ("root") true [("f1"), ("f2")] [Dir.node ("sub") true [("f3")] []]

theorem claim_C9_scan_complete_witness :
    (scanFilesThreaded (some c9tree)).files = walkList [c9tree]
    ∧ directories c9tree = allDirsList [c9tree]
    ∧ (scanFilesThreaded (some c9tree)).files.length
        = (walkList [c9tree]).length :=
  claim_C9_scan_complete c9tree (by simp [c9tree, allReadable])

/-! ## TempFileSweeper (`clean_temp_files`, lines 703-731) -/

/-- The fixed suffix list of line 84 (`self.temp_extensions`). -/
def tempExtensions : List String :=
  [(".tmp"), (".temp"), (".bak"), (".log"), ("~"), (".swp"), (".cache"),
    (".crdownload"), (".part")]

/-- The fixed substring list of line 729. -/
def tempPatterns : List String := [("cache"), ("temp"), ("tmp"), ("backup")]

/-- Python `name.endswith(suffix)`. -/
def endsWithB (s suf : String) : Bool := suf.data.isSuffixOf s.data

/-- Python `pattern in text` (substring containment) for the non-empty
patterns this program uses. -/
def containsChars : List Char → List Char → Bool
  | _, [] => false
  | pat, c :: rest => pat.isPrefixOf (c :: rest) || containsChars pat rest

def containsSub (s pat : String) : Bool := containsChars pat.data s.data

/-- The candidate test of lines 723-731: an `if`/`elif` chain that first
checks the suffix list against the raw name, then the substring list
against the lower-cased name. -/
def isTempFile (nm : String) : Bool :=
  if tempExtensions.any (fun e => endsWithB nm e) then true
  else if tempPatterns.any (fun p => containsSub (lowerStr nm) p) then true
  else false

/-- Modelled from the words of the spec: the union of the two independent
predicates. -/
def isTempFileSpec (nm : String) : Bool :=
  tempExtensions.any (fun e => endsWithB nm e)
    || tempPatterns.any (fun p => containsSub (lowerStr nm) p)

/-- Claim C10: a file is a temp-sweep candidate exactly when its name ends
with one of the fixed suffixes or its lower-cased name contains one of the
fixed substrings; `x.tmp` and `cache_data.bin` are candidates,
`report.pdf` is not. -/
theorem claim_C10_temp_candidate_predicate :
    (∀ nm : String, isTempFile nm = isTempFileSpec nm)
    ∧ isTempFile ("x.tmp") = true
    ∧ isTempFile ("cache_data.bin") = true
    ∧ isTempFile ("report.pdf") = false := by
  refine ⟨?_, by decide, by decide, by decide⟩
  intro nm
  unfold isTempFile isTempFileSpec
  by_cases h1 : tempExtensions.any (fun e => endsWithB nm e) <;>
    by_cases h2 : tempPatterns.any (fun p => containsSub (lowerStr nm) p) <;>
      simp [h1, h2]
